import Mathlib

/-!
Verification of the ApexRS geometry kernel: a shallow embedding of the
Rust sources (`src/coordinate.rs`, `src/point2d.rs`, `src/convexity.rs`,
`src/detail/sync_status.rs`, `src/polygon.rs`,
`src/operations/translate.rs`) together with proofs about the embedded
operations.

Machine integers are modelled as `Int` with explicit two's-complement
wrapping: `Coordinate` is Rust's `i32`, so additions and subtractions on
coordinates reduce modulo `2^32` into the signed range
`[-2147483648, 2147483648)`, matching the release-mode (wrapping)
semantics the library's contract prescribes for coordinate arithmetic.
-/

namespace ApexRS

/-- Two's-complement wrapping of an integer into the signed 32-bit range,
the semantics of `i32` addition and subtraction overflow in
`src/point2d.rs` (`Coordinate` is `i32`, see `src/coordinate.rs`). -/
def wrap32 (n : Int) : Int :=
  (n + 2147483648) % 4294967296 - 2147483648

/-- The values representable by the `Coordinate` type (`i32`):
the signed 32-bit range. -/
def ValidCoord (n : Int) : Prop :=
  -2147483648 ≤ n ∧ n < 2147483648

instance (n : Int) : Decidable (ValidCoord n) :=
  inferInstanceAs (Decidable (_ ∧ _))

/-- `Point2D` from `src/point2d.rs`: an ordered pair of `Coordinate`s. -/
structure Point2D where
  x : Int
  y : Int
deriving DecidableEq, Repr

/-- `Convexity` from `src/convexity.rs`. -/
inductive Convexity where
  | UNKNOWN
  | CONVEX
  | CONCAVE
  | DEGENERATE
deriving DecidableEq, Repr

/-- `SyncStatus` from `src/detail/sync_status.rs`: which copy (host or
device) of a dual-located resource is authoritative. -/
inductive SyncStatus where
  | HOST
  | GPU
  | SYNCED
deriving DecidableEq, Repr

namespace Point2D

/-- `Point2D::new` from `src/point2d.rs`. -/
def new (x y : Int) : Point2D :=
  { x := x, y := y }

/-- `<Point2D as TwoDimensional>::translate` from `src/point2d.rs`:
`self.x += dx; self.y += dy;` with `i32` wrapping overflow semantics. -/
def translate (p : Point2D) (dx dy : Int) : Point2D :=
  { x := wrap32 (p.x + dx), y := wrap32 (p.y + dy) }

/-- `<Point2D as Shape2D>::area` from `src/point2d.rs`: always 0. -/
def area (_ : Point2D) : Int :=
  0

/-- `<Point2D as Shape2D>::convexity` from `src/point2d.rs`:
always `DEGENERATE`. -/
def convexity (_ : Point2D) : Convexity :=
  Convexity.DEGENERATE

/-- The `+` operator on `Point2D` (`impl_op_ex!` in `src/point2d.rs`):
componentwise `i32` addition, a pure function returning a new point. -/
def add (a b : Point2D) : Point2D :=
  Point2D.new (wrap32 (a.x + b.x)) (wrap32 (a.y + b.y))

/-- The `-` operator on `Point2D` (`impl_op_ex!` in `src/point2d.rs`):
componentwise `i32` subtraction, a pure function returning a new point. -/
def sub (a b : Point2D) : Point2D :=
  Point2D.new (wrap32 (a.x - b.x)) (wrap32 (a.y - b.y))

end Point2D

/-- Model of the `Vec<Point2D>` buffer owned by `Polygon`: the stored
vertices together with the current capacity of the allocation. Capacity
evolution follows the behavior of Rust's standard `Vec` that
`src/polygon.rs` relies on (and that the crate's own doctests and unit
tests assert): `with_capacity(n)` reserves exactly `n`; a push or insert
within capacity reallocates nothing; a push or insert beyond capacity
grows the allocation amortized (at least doubling, with a small minimum),
so the new capacity strictly exceeds the old one. -/
structure Vec where
  data : List Point2D
  cap : Nat
deriving DecidableEq, Repr

namespace Vec

/-- `Vec::new`: empty, no allocation. -/
def new : Vec :=
  { data := [], cap := 0 }

/-- `Vec::with_capacity(n)`: empty, capacity exactly `n`. -/
def with_capacity (n : Nat) : Vec :=
  { data := [], cap := n }

/-- `Vec::len`. -/
def len (v : Vec) : Nat :=
  v.data.length

/-- The amortized growth of the capacity when `required` slots are
needed and the current allocation is too small: at least double the old
capacity, at least the required amount, and at least a small constant
minimum (4 for 8-byte elements such as `Point2D`). -/
def grow (v : Vec) (required : Nat) : Nat :=
  max 4 (max (2 * v.cap) required)

/-- `Vec::push`: append at the end; reallocate only when full. -/
def push (v : Vec) (p : Point2D) : Vec :=
  if v.data.length < v.cap then
    { data := v.data ++ [p], cap := v.cap }
  else
    { data := v.data ++ [p], cap := v.grow (v.data.length + 1) }

/-- `Vec::pop`: remove and return the last element, `none` when empty.
The capacity is unchanged. -/
def pop (v : Vec) : Option Point2D × Vec :=
  match v.data.getLast? with
  | none => (none, v)
  | some p => (some p, { data := v.data.dropLast, cap := v.cap })

/-- `Vec::insert`: insert at position `i`, shifting later elements;
reallocates only when full. -/
def insert (v : Vec) (i : Nat) (p : Point2D) : Vec :=
  let newData := v.data.take i ++ p :: v.data.drop i
  if v.data.length < v.cap then
    { data := newData, cap := v.cap }
  else
    { data := newData, cap := v.grow (v.data.length + 1) }

/-- `Vec::remove`: remove the element at position `i`, shifting later
elements down. The capacity is unchanged. -/
def remove (v : Vec) (i : Nat) : Vec :=
  { data := v.data.eraseIdx i, cap := v.cap }

/-- `Vec::clear`: drop all elements, keep the allocation. -/
def clear (v : Vec) : Vec :=
  { data := [], cap := v.cap }

/-- `Vec::reserve(additional)`: no-op when the capacity already covers
`len + additional`, otherwise grow amortized. -/
def reserve (v : Vec) (additional : Nat) : Vec :=
  if v.data.length + additional ≤ v.cap then v
  else { data := v.data, cap := v.grow (v.data.length + additional) }

/-- Writing one element in place (the effect of `index_mut` or a
mutable iterator on a single vertex). -/
def setAt (v : Vec) (i : Nat) (p : Point2D) : Vec :=
  { data := v.data.set i p, cap := v.cap }

end Vec

/-- `Polygon` from `src/polygon.rs`: the owned vertex buffer plus the
host/device coherence tag. -/
structure Polygon where
  vertices : Vec
  sync_status : SyncStatus
deriving DecidableEq, Repr

namespace Polygon

/-- `Polygon::new` from `src/polygon.rs`. -/
def new : Polygon :=
  { vertices := Vec.new, sync_status := SyncStatus.HOST }

/-- `Polygon::with_capacity` from `src/polygon.rs`. -/
def with_capacity (n : Nat) : Polygon :=
  { vertices := Vec.with_capacity n, sync_status := SyncStatus.HOST }

/-- `Polygon::host_vertices` from `src/polygon.rs`: a pass-through to
the owned buffer (the `TODO: Sync from GPU if necessary` is not wired to
any device backend, so no device-to-host copy ever happens). -/
def host_vertices (p : Polygon) : Vec :=
  p.vertices

/-- The write-back counterpart of `Polygon::host_vertices_mut`: every
mutating method obtains the buffer through the pass-through accessor,
mutates it, and the polygon keeps its `sync_status` unchanged. -/
def modifyVertices (p : Polygon) (f : Vec → Vec) : Polygon :=
  { p with vertices := f p.host_vertices }

/-- `Polygon::capacity` from `src/polygon.rs`. -/
def capacity (p : Polygon) : Nat :=
  p.host_vertices.cap

/-- `Polygon::reserve` from `src/polygon.rs`. -/
def reserve (p : Polygon) (additional : Nat) : Polygon :=
  p.modifyVertices (fun v => v.reserve additional)

/-- `Polygon::len` from `src/polygon.rs`. -/
def len (p : Polygon) : Nat :=
  p.host_vertices.len

/-- `Polygon::push` from `src/polygon.rs`. -/
def push (p : Polygon) (vertex : Point2D) : Polygon :=
  p.modifyVertices (fun v => v.push vertex)

/-- `Polygon::pop` from `src/polygon.rs`: remove and return the last
vertex, or `none` when the polygon is empty. -/
def pop (p : Polygon) : Option Point2D × Polygon :=
  let r := p.host_vertices.pop
  (r.1, { p with vertices := r.2 })

/-- `Polygon::insert` from `src/polygon.rs`. -/
def insert (p : Polygon) (index : Nat) (vertex : Point2D) : Polygon :=
  p.modifyVertices (fun v => v.insert index vertex)

/-- `Polygon::remove` from `src/polygon.rs` (the removed-vertex return
value is `p.vertices.data.get index`; only the resulting polygon is
modelled here). -/
def remove (p : Polygon) (index : Nat) : Polygon :=
  p.modifyVertices (fun v => v.remove index)

/-- `Polygon::clear` from `src/polygon.rs`. -/
def clear (p : Polygon) : Polygon :=
  p.modifyVertices Vec.clear

/-- `Polygon::get` from `src/polygon.rs`: bounds-checked access
returning `none` out of range. -/
def get (p : Polygon) (index : Nat) : Option Point2D :=
  p.host_vertices.data.get? index

/-- Writing one vertex in place: the effect of `get_mut`, `iter_mut` on
one position, or assignment through `index_mut`. -/
def setAt (p : Polygon) (index : Nat) (vertex : Point2D) : Polygon :=
  p.modifyVertices (fun v => v.setAt index vertex)

/-- Mutating every vertex in place through `iter_mut`. -/
def mapVertices (p : Polygon) (f : Point2D → Point2D) : Polygon :=
  p.modifyVertices (fun v => { data := v.data.map f, cap := v.cap })

/-- `<Polygon as Index<usize>>::index` from `src/polygon.rs`: delegates
to slice indexing, which panics out of range with the standard bounds
message naming the length and the attempted index. The panic is modelled
as `Except.error` carrying the panic message. -/
def index (p : Polygon) (i : Nat) : Except String Point2D :=
  let n := p.host_vertices.data.length
  if h : i < n then
    Except.ok (p.host_vertices.data.get ⟨i, h⟩)
  else
    Except.error ("index out of bounds: the len is " ++ toString n ++
      " but the index is " ++ toString i)

/-- `<Polygon as FromIterator<Point2D>>::from_iter` from
`src/polygon.rs`: collect the points in order into fresh storage. -/
def from_iter (l : List Point2D) : Polygon :=
  { vertices := { data := l, cap := l.length }, sync_status := SyncStatus.HOST }

/-- `<Polygon as Shape2D>::area` from `src/polygon.rs`: placeholder
returning 0. -/
def area (_ : Polygon) : Int :=
  0

/-- `<Polygon as Shape2D>::convexity` from `src/polygon.rs`: placeholder
returning `Convexity::UNKNOWN`. -/
def convexity (_ : Polygon) : Convexity :=
  Convexity.UNKNOWN

end Polygon

namespace operations

/-- `translate_polygon_st` from `src/operations/translate.rs`: translate
every vertex in order, sequentially, through `host_vertices_mut`. -/
def translate_polygon_st (p : Polygon) (dx dy : Int) : Polygon :=
  p.modifyVertices (fun v =>
    { data := v.data.map (fun vertex => vertex.translate dx dy), cap := v.cap })

/-- The chunk size chosen by `translate_polygon_mt` in
`src/operations/translate.rs`:
`cmp::max(10000, polygon.host_vertices().len() / rayon::current_num_threads())`,
as a function of the buffer length and the available parallelism. -/
def translate_chunk_size (n num_threads : Nat) : Nat :=
  max 10000 (n / num_threads)

/-- The partition produced by rayon's `par_chunks_mut(cs)`: contiguous
chunks of `cs` elements each, the last chunk possibly shorter. (For a
cons list, `xs.drop (cs - 1)` is `(x :: xs).drop cs`.) -/
def parChunks {α : Type} (cs : Nat) : List α → List (List α)
  | [] => []
  | x :: xs => (x :: xs).take cs :: parChunks cs (xs.drop (cs - 1))
termination_by l => l.length
decreasing_by
  simp only [List.length_drop, List.length_cons]
  omega

/-- `translate_polygon_mt` from `src/operations/translate.rs`: split the
buffer into chunks of `max(10000, len / num_threads)` vertices, translate
each chunk elementwise, with the chunks written back in place (modelled
as the concatenation of the translated chunks). `num_threads` stands for
`rayon::current_num_threads()`, which rayon guarantees to be positive. -/
def translate_polygon_mt (p : Polygon) (dx dy : Int) (num_threads : Nat) : Polygon :=
  let cs := translate_chunk_size p.host_vertices.len num_threads
  p.modifyVertices (fun v =>
    { data := ((parChunks cs v.data).map
        (fun slice => slice.map (fun vertex => vertex.translate dx dy))).flatten,
      cap := v.cap })

end operations

section ChunkLemmas

open operations

/-- Splitting into chunks of positive size and flattening restores the
original list: the rayon partition covers the buffer without overlap. -/
theorem parChunks_flatten {α : Type} (cs : Nat) (h : 1 ≤ cs) (l : List α) :
    (parChunks cs l).flatten = l := by
  have main : ∀ (n : Nat) (l : List α), l.length ≤ n → (parChunks cs l).flatten = l := by
    intro n
    induction n with
    | zero =>
      intro l hl
      have : l = [] := List.length_eq_zero.mp (Nat.le_zero.mp hl)
      subst this
      simp [parChunks]
    | succ n ih =>
      intro l hl
      match l with
      | [] => simp [parChunks]
      | x :: xs =>
        rw [parChunks]
        have hlen : (xs.drop (cs - 1)).length ≤ n := by
          simp only [List.length_drop]
          simp only [List.length_cons] at hl
          omega
        simp only [List.flatten_cons, ih _ hlen]
        obtain ⟨k, rfl⟩ : ∃ k, cs = k + 1 := ⟨cs - 1, by omega⟩
        simp only [List.take_succ_cons, Nat.add_sub_cancel, List.cons_append,
          List.take_append_drop]
  exact main l.length l le_rfl

/-- Chunked elementwise mapping equals direct elementwise mapping, for
any positive chunk size. -/
theorem parChunks_map_flatten {α β : Type} (cs : Nat) (h : 1 ≤ cs)
    (f : α → β) (l : List α) :
    ((parChunks cs l).map (fun slice => slice.map f)).flatten = l.map f := by
  rw [← List.map_flatten, parChunks_flatten cs h]

end ChunkLemmas

section WrapLemmas

/-- Wrapping a value already in the signed 32-bit range changes nothing:
`i32` addition is exact when it does not overflow. -/
theorem wrap32_eq_of_valid (n : Int) (h : ValidCoord n) : wrap32 n = n := by
  simp only [wrap32, ValidCoord] at *
  omega

/-- Mapping a function that fixes every member of a list is the
identity. -/
theorem map_mem_id {α : Type} (l : List α) (f : α → α)
    (h : ∀ a ∈ l, f a = a) : l.map f = l := by
  induction l with
  | nil => rfl
  | cons x xs ih =>
    simp only [List.map_cons, h x (List.mem_cons_self x xs)]
    rw [ih (fun a ha => h a (List.mem_cons_of_mem x ha))]

/-- Translating a point forward and back cancels exactly when neither
coordinate addition overflows. -/
theorem translate_cancel (v : Point2D) (dx dy : Int)
    (hx : ValidCoord v.x) (hy : ValidCoord v.y)
    (hxd : ValidCoord (v.x + dx)) (hyd : ValidCoord (v.y + dy)) :
    (v.translate dx dy).translate (-dx) (-dy) = v := by
  cases v with
  | mk x y =>
    simp only [Point2D.translate, Point2D.mk.injEq]
    simp only [ValidCoord] at hx hy hxd hyd
    simp only [wrap32]
    constructor <;> omega

end WrapLemmas

/-- **C1.** For every polygon (including the empty one) and every
displacement `(dx, dy)`, and for any reported parallelism, the parallel
translate `translate_polygon_mt` produces exactly the same polygon as
the sequential translate `translate_polygon_st`, and both replace every
vertex `(x, y)` by `(x + dx, y + dy)` (with `i32` wrapping) in the same
order. -/
theorem c1_translate_st_mt_equiv (p : Polygon) (dx dy : Int) (num_threads : Nat) :
    operations.translate_polygon_mt p dx dy num_threads =
      operations.translate_polygon_st p dx dy ∧
    (operations.translate_polygon_st p dx dy).vertices.data =
      p.vertices.data.map (fun v => v.translate dx dy) := by
  have hcs : 1 ≤ operations.translate_chunk_size p.host_vertices.len num_threads :=
    le_trans (by norm_num) (Nat.le_max_left 10000 _)
  constructor
  · simp only [operations.translate_polygon_mt, operations.translate_polygon_st,
      Polygon.modifyVertices]
    rw [parChunks_map_flatten _ hcs]
  · rfl

/-- **C2.** The claim states the public `convexity()` never returns the
`UNKNOWN` variant; the implementation is a placeholder that returns
`UNKNOWN` for every polygon, here evaluated at the empty polygon. -/
theorem c2_convexity_returns_unknown :
    Polygon.new.convexity = Convexity.UNKNOWN ∧
    Polygon.new.convexity ≠ Convexity.CONVEX ∧
    Polygon.new.convexity ≠ Convexity.CONCAVE ∧
    Polygon.new.convexity ≠ Convexity.DEGENERATE := by
  refine ⟨rfl, ?_, ?_, ?_⟩ <;> intro h <;> cases h

/-- **C3.** `Point2D::translate` is total over the full `i32` range: the
resulting coordinates are congruent to `x + dx` and `y + dy` modulo
`2^32` and lie in the signed 32-bit range — two's-complement wrapping,
with no panic and no saturation. -/
theorem c3_translate_total_wrapping (p : Point2D) (dx dy : Int) :
    ((p.translate dx dy).x - (p.x + dx)) % 4294967296 = 0 ∧
    ((p.translate dx dy).y - (p.y + dy)) % 4294967296 = 0 ∧
    ValidCoord (p.translate dx dy).x ∧
    ValidCoord (p.translate dx dy).y := by
  simp only [Point2D.translate, wrap32, ValidCoord]
  omega

section MoreChunkLemmas

open operations

/-- The chunks of the empty list: none. -/
theorem parChunks_nil {α : Type} (cs : Nat) : parChunks cs ([] : List α) = [] := by
  simp [parChunks]

/-- A buffer that fits in one chunk yields at most one chunk. -/
theorem parChunks_length_le_one {α : Type} (cs : Nat) (l : List α)
    (h : l.length ≤ cs) : (parChunks cs l).length ≤ 1 := by
  match l with
  | [] => simp [parChunks]
  | x :: xs =>
    rw [parChunks]
    have hdrop : xs.drop (cs - 1) = [] := by
      apply List.drop_eq_nil_of_le
      simp only [List.length_cons] at h
      omega
    rw [hdrop, parChunks_nil]
    simp

/-- Every chunk holds at most `cs` elements. -/
theorem parChunks_mem_length_le {α : Type} (cs : Nat) (l : List α) :
    ∀ c ∈ parChunks cs l, c.length ≤ cs := by
  have main : ∀ (n : Nat) (l : List α), l.length ≤ n →
      ∀ c ∈ parChunks cs l, c.length ≤ cs := by
    intro n
    induction n with
    | zero =>
      intro l hl c hc
      have : l = [] := List.length_eq_zero.mp (Nat.le_zero.mp hl)
      subst this
      rw [parChunks_nil] at hc
      cases hc
    | succ n ih =>
      intro l hl c hc
      match l with
      | [] =>
        rw [parChunks_nil] at hc
        cases hc
      | x :: xs =>
        rw [parChunks] at hc
        rcases List.mem_cons.mp hc with h1 | h2
        · subst h1
          exact List.length_take_le cs (x :: xs)
        · apply ih (xs.drop (cs - 1)) _ c h2
          simp only [List.length_drop]
          simp only [List.length_cons] at hl
          omega
  exact main l.length l le_rfl

/-- Nonempty buffers yield at least one chunk. -/
theorem parChunks_ne_nil {α : Type} (cs : Nat) (l : List α) (h : l ≠ []) :
    parChunks cs l ≠ [] := by
  match l with
  | [] => exact absurd rfl h
  | x :: xs =>
    rw [parChunks]
    exact List.cons_ne_nil _ _

/-- Every chunk except possibly the last holds exactly `cs` elements:
the rayon partition is even apart from the tail remainder. -/
theorem parChunks_dropLast_length {α : Type} (cs : Nat) (h : 1 ≤ cs) (l : List α) :
    ∀ c ∈ (parChunks cs l).dropLast, c.length = cs := by
  have main : ∀ (n : Nat) (l : List α), l.length ≤ n →
      ∀ c ∈ (parChunks cs l).dropLast, c.length = cs := by
    intro n
    induction n with
    | zero =>
      intro l hl c hc
      have : l = [] := List.length_eq_zero.mp (Nat.le_zero.mp hl)
      subst this
      rw [parChunks_nil] at hc
      cases hc
    | succ n ih =>
      intro l hl c hc
      match l with
      | [] =>
        rw [parChunks_nil] at hc
        cases hc
      | x :: xs =>
        rw [parChunks] at hc
        match hrest : parChunks cs (xs.drop (cs - 1)) with
        | [] =>
          rw [hrest] at hc
          simp at hc
        | r :: rs =>
          rw [hrest] at hc
          rw [List.dropLast_cons₂] at hc
          rcases List.mem_cons.mp hc with h1 | h2
          · subst h1
            have hne : xs.drop (cs - 1) ≠ [] := by
              intro hnil
              rw [hnil, parChunks_nil] at hrest
              cases hrest
            have hlen : cs ≤ (x :: xs).length := by
              simp only [List.length_cons]
              have hpos : 0 < (xs.drop (cs - 1)).length :=
                List.length_pos.mpr hne
              simp only [List.length_drop] at hpos
              omega
            exact List.length_take_of_le hlen
          · have hlen : (xs.drop (cs - 1)).length ≤ n := by
              simp only [List.length_drop]
              simp only [List.length_cons] at hl
              omega
            apply ih (xs.drop (cs - 1)) hlen c
            rw [hrest]
            exact h2
  exact main l.length l le_rfl

end MoreChunkLemmas

/-- **C4.** The chunk size used by the parallel translate equals the
larger of the fixed minimum floor 10000 and `n / num_threads`; a buffer
no longer than the floor is processed as at most a single chunk
(effectively sequentially); and the partition is even: every chunk holds
at most `chunk_size` elements and every chunk except possibly the last
holds exactly `chunk_size` elements. -/
theorem c4_chunk_size_policy (n num_threads : Nat) (l : List Point2D) :
    operations.translate_chunk_size n num_threads = max 10000 (n / num_threads) ∧
    (l.length ≤ 10000 →
      (operations.parChunks (operations.translate_chunk_size l.length num_threads) l).length ≤ 1) ∧
    (∀ c ∈ operations.parChunks (operations.translate_chunk_size l.length num_threads) l,
      c.length ≤ operations.translate_chunk_size l.length num_threads) ∧
    (∀ c ∈ (operations.parChunks
        (operations.translate_chunk_size l.length num_threads) l).dropLast,
      c.length = operations.translate_chunk_size l.length num_threads) := by
  refine ⟨rfl, ?_, ?_, ?_⟩
  · intro hsmall
    apply parChunks_length_le_one
    exact le_trans hsmall (Nat.le_max_left 10000 _)
  · exact parChunks_mem_length_le _ l
  · exact parChunks_dropLast_length _ (le_trans (by norm_num) (Nat.le_max_left 10000 _)) l

/-- **C4 witness.** A concrete three-vertex buffer with reported
parallelism 2: the buffer is below the floor, so the parallel path
degenerates to a single chunk. -/
theorem c4_chunk_size_policy_witness :
    ([(⟨0, 0⟩ : Point2D), ⟨1, 1⟩, ⟨2, 2⟩].length ≤ 10000) ∧
    (operations.parChunks
      (operations.translate_chunk_size
        [(⟨0, 0⟩ : Point2D), ⟨1, 1⟩, ⟨2, 2⟩].length 2)
      [(⟨0, 0⟩ : Point2D), ⟨1, 1⟩, ⟨2, 2⟩]).length ≤ 1 :=
  ⟨by norm_num,
   (c4_chunk_size_policy 3 2 [⟨0, 0⟩, ⟨1, 1⟩, ⟨2, 2⟩]).2.1 (by norm_num)⟩

/-- **C5.** When every vertex is a valid `i32` point and no coordinate
addition overflows, translating a polygon by `(dx, dy)` and then by
`(-dx, -dy)` restores the original polygon exactly. -/
theorem c5_translate_roundtrip (p : Polygon) (dx dy : Int)
    (hvalid : ∀ v ∈ p.vertices.data, ValidCoord v.x ∧ ValidCoord v.y)
    (hnoflow : ∀ v ∈ p.vertices.data, ValidCoord (v.x + dx) ∧ ValidCoord (v.y + dy)) :
    operations.translate_polygon_st
      (operations.translate_polygon_st p dx dy) (-dx) (-dy) = p := by
  cases p with
  | mk vtx st =>
    cases vtx with
    | mk data cap =>
      simp only [operations.translate_polygon_st, Polygon.modifyVertices,
        Polygon.host_vertices, List.map_map]
      congr 1
      congr 1
      apply map_mem_id
      intro v hv
      simp only [Function.comp_apply]
      exact translate_cancel v dx dy (hvalid v hv).1 (hvalid v hv).2
        (hnoflow v hv).1 (hnoflow v hv).2

/-- **C5 witness.** The concrete 1000-square translated by
`(100, -150)` and back: no addition overflows, and the round trip
restores the square. -/
theorem c5_translate_roundtrip_witness :
    operations.translate_polygon_st
      (operations.translate_polygon_st
        (Polygon.from_iter [⟨0, 0⟩, ⟨1000, 0⟩, ⟨1000, 1000⟩, ⟨0, 1000⟩])
        100 (-150)) (-100) 150 =
      Polygon.from_iter [⟨0, 0⟩, ⟨1000, 0⟩, ⟨1000, 1000⟩, ⟨0, 1000⟩] := by
  have h := c5_translate_roundtrip
    (Polygon.from_iter [⟨0, 0⟩, ⟨1000, 0⟩, ⟨1000, 1000⟩, ⟨0, 1000⟩])
    100 (-150) (by decide) (by decide)
  simpa using h

/-- Pushing a list of vertices one by one, oldest first, as repeated
`Polygon::push` calls. -/
def pushAll (p : Polygon) (vs : List Point2D) : Polygon :=
  vs.foldl Polygon.push p

/-- Pushing within the reserved capacity appends without touching the
capacity. -/
theorem vec_pushAll_within_cap (vs : List Point2D) :
    ∀ (v : Vec), v.data.length + vs.length ≤ v.cap →
      (vs.foldl Vec.push v).data = v.data ++ vs ∧ (vs.foldl Vec.push v).cap = v.cap := by
  induction vs with
  | nil =>
    intro v _
    simp
  | cons w ws ih =>
    intro v hcap
    simp only [List.length_cons] at hcap
    have hlt : v.data.length < v.cap := by omega
    have hstep : v.push w = { data := v.data ++ [w], cap := v.cap } := by
      simp [Vec.push, hlt]
    simp only [List.foldl_cons, hstep]
    have := ih { data := v.data ++ [w], cap := v.cap } (by simp; omega)
    simpa using this

/-- `Polygon.pushAll` delegates to the buffer. -/
theorem pushAll_vertices (p : Polygon) (vs : List Point2D) :
    (pushAll p vs).vertices = vs.foldl Vec.push p.vertices ∧
    (pushAll p vs).sync_status = p.sync_status := by
  induction vs generalizing p with
  | nil => exact ⟨rfl, rfl⟩
  | cons w ws ih =>
    simp only [pushAll, List.foldl_cons]
    exact ih (p.push w)

/-- **C6.** `Polygon::with_capacity(n)` yields zero vertices and
capacity exactly `n`; the first `n` pushes never reallocate (the
capacity stays `n` and the vertices accumulate in order); a push beyond
`n` vertices raises the capacity strictly above `n`; and
`Polygon::new()` has length 0. -/
theorem c6_with_capacity_pushes (n : Nat) (vs : List Point2D) (w : Point2D) :
    Polygon.new.len = 0 ∧
    (Polygon.with_capacity n).len = 0 ∧
    (Polygon.with_capacity n).capacity = n ∧
    (vs.length ≤ n →
      (pushAll (Polygon.with_capacity n) vs).capacity = n ∧
      (pushAll (Polygon.with_capacity n) vs).len = vs.length) ∧
    (vs.length = n → ((pushAll (Polygon.with_capacity n) vs).push w).capacity > n) := by
  have hbase : (Polygon.with_capacity n).vertices = { data := [], cap := n } := rfl
  refine ⟨rfl, rfl, rfl, ?_, ?_⟩
  · intro hle
    have h := vec_pushAll_within_cap vs { data := [], cap := n } (by simpa using hle)
    have hv := pushAll_vertices (Polygon.with_capacity n) vs
    constructor
    · simp only [Polygon.capacity, Polygon.host_vertices, hv.1, hbase, h.2]
    · simp only [Polygon.len, Polygon.host_vertices, Vec.len, hv.1, hbase, h.1]
      simp
  · intro heq
    have h := vec_pushAll_within_cap vs { data := [], cap := n } (by simp [heq])
    have hv := pushAll_vertices (Polygon.with_capacity n) vs
    simp only [Polygon.capacity, Polygon.host_vertices, Polygon.push,
      Polygon.modifyVertices, Vec.push, hv.1, hbase, h.1, h.2]
    have hfull : ¬ (([] ++ vs : List Point2D).length < n) := by
      simp [heq]
    rw [if_neg hfull]
    simp only [Vec.grow]
    omega

/-- **C6 witness.** Capacity 4, four concrete pushes, then a fifth: the
capacity stays 4 through the first four pushes and exceeds 4 after the
fifth. -/
theorem c6_with_capacity_pushes_witness :
    (pushAll (Polygon.with_capacity 4)
      [⟨0, 0⟩, ⟨1000, 0⟩, ⟨1000, 1000⟩, ⟨0, 1000⟩]).capacity = 4 ∧
    ((pushAll (Polygon.with_capacity 4)
      [⟨0, 0⟩, ⟨1000, 0⟩, ⟨1000, 1000⟩, ⟨0, 1000⟩]).push ⟨50, 50⟩).capacity > 4 :=
  ⟨((c6_with_capacity_pushes 4 [⟨0, 0⟩, ⟨1000, 0⟩, ⟨1000, 1000⟩, ⟨0, 1000⟩]
      ⟨50, 50⟩).2.2.2.1 (by norm_num)).1,
   (c6_with_capacity_pushes 4 [⟨0, 0⟩, ⟨1000, 0⟩, ⟨1000, 1000⟩, ⟨0, 1000⟩]
      ⟨50, 50⟩).2.2.2.2 (by norm_num)⟩

/-- **C7.** Positional indexing of a polygon of length `n` fails
(panics) exactly when the index is at least `n`; in that case the
diagnostic message names the actual length and the attempted index; for
an index below `n` it returns the vertex at that index, never a
sentinel. -/
theorem c7_index_bounds (p : Polygon) (i : Nat) :
    ((∃ e, p.index i = Except.error e) ↔ p.len ≤ i) ∧
    (∀ h : i < p.vertices.data.length,
      p.index i = Except.ok (p.vertices.data.get ⟨i, h⟩)) ∧
    (p.len ≤ i → p.index i = Except.error
      ("index out of bounds: the len is " ++ toString p.len ++
        " but the index is " ++ toString i)) := by
  have herr : p.len ≤ i → p.index i = Except.error
      ("index out of bounds: the len is " ++ toString p.len ++
        " but the index is " ++ toString i) := by
    intro hle
    simp only [Polygon.index, Polygon.host_vertices]
    rw [dif_neg (by simpa [Polygon.len, Polygon.host_vertices, Vec.len] using
      Nat.not_lt_of_le hle)]
    rfl
  refine ⟨⟨?_, fun hle => ⟨_, herr hle⟩⟩, ?_, herr⟩
  · rintro ⟨e, he⟩
    by_contra hlt
    simp only [Polygon.index, Polygon.host_vertices] at he
    rw [dif_pos (by simpa [Polygon.len, Polygon.host_vertices, Vec.len] using
      Nat.lt_of_not_le hlt)] at he
    cases he
  · intro h
    simp only [Polygon.index, Polygon.host_vertices]
    rw [dif_pos h]

/-- **C7 witness.** Indexing a concrete triangle at its length fails
with the bounds message naming length 3 and index 3; indexing within
range returns the vertex. -/
theorem c7_index_bounds_witness :
    (Polygon.from_iter [⟨0, 0⟩, ⟨1000, 0⟩, ⟨500, 1000⟩]).index 3 =
      Except.error "index out of bounds: the len is 3 but the index is 3" ∧
    (Polygon.from_iter [⟨0, 0⟩, ⟨1000, 0⟩, ⟨500, 1000⟩]).index 1 =
      Except.ok ⟨1000, 0⟩ := by
  constructor
  · have h := (c7_index_bounds
      (Polygon.from_iter [⟨0, 0⟩, ⟨1000, 0⟩, ⟨500, 1000⟩]) 3).2.2 (by decide)
    simpa using h
  · have h := (c7_index_bounds
      (Polygon.from_iter [⟨0, 0⟩, ⟨1000, 0⟩, ⟨500, 1000⟩]) 1).2.1 (by decide)
    simpa using h

/-- **C8.** `Polygon::pop` on an empty polygon returns `None` and leaves
the polygon unchanged, without failing; on a non-empty polygon it
removes and returns the last vertex (the one adjacent to the seam),
decreasing the length by one and leaving everything else (including the
coherence tag and the capacity) intact. -/
theorem c8_pop (p : Polygon) :
    (p.len = 0 → p.pop = (none, p)) ∧
    (0 < p.len →
      (p.pop).1 = p.vertices.data.getLast? ∧
      (p.pop).2 = { p with vertices :=
        { data := p.vertices.data.dropLast, cap := p.vertices.cap } } ∧
      (p.pop).2.len = p.len - 1) := by
  constructor
  · intro h0
    have hnil : p.vertices.data = [] := by
      simpa [Polygon.len, Polygon.host_vertices, Vec.len] using
        List.length_eq_zero.mp h0
    simp [Polygon.pop, Vec.pop, Polygon.host_vertices, hnil]
  · intro hpos
    have hne : p.vertices.data ≠ [] := by
      intro hnil
      simp [Polygon.len, Polygon.host_vertices, Vec.len, hnil] at hpos
    have ha := List.getLast?_eq_getLast_of_ne_nil hne
    refine ⟨?_, ?_, ?_⟩
    · simp [Polygon.pop, Vec.pop, Polygon.host_vertices, ha]
    · simp [Polygon.pop, Vec.pop, Polygon.host_vertices, ha]
    · simp only [Polygon.pop, Vec.pop, Polygon.host_vertices, ha]
      simp [Polygon.len, Polygon.host_vertices, Vec.len, List.length_dropLast]

/-- **C8 witness.** Popping a concrete triangle returns its last vertex
and shrinks it to two vertices; popping the empty polygon returns
`none` and the empty polygon unchanged. -/
theorem c8_pop_witness :
    ((Polygon.from_iter [⟨0, 0⟩, ⟨1000, 0⟩, ⟨500, 1000⟩]).pop).1 =
      some ⟨500, 1000⟩ ∧
    Polygon.new.pop = (none, Polygon.new) := by
  constructor
  · have h := ((c8_pop (Polygon.from_iter [⟨0, 0⟩, ⟨1000, 0⟩, ⟨500, 1000⟩])).2
      (by decide)).1
    simpa using h
  · exact (c8_pop Polygon.new).1 rfl

/-- **C9.** Point addition is commutative; subtraction is componentwise
`i32` subtraction (exact whenever the difference does not overflow);
the spec's concrete instance holds; and both operators are pure
functions from two points to a fresh point. -/
theorem c9_point_ops (a b : Point2D) :
    Point2D.add a b = Point2D.add b a ∧
    Point2D.sub a b = { x := wrap32 (a.x - b.x), y := wrap32 (a.y - b.y) } ∧
    (ValidCoord (a.x - b.x) → (Point2D.sub a b).x = a.x - b.x) ∧
    (ValidCoord (a.y - b.y) → (Point2D.sub a b).y = a.y - b.y) ∧
    Point2D.sub ⟨100, 200⟩ ⟨10, -20⟩ = (⟨90, 220⟩ : Point2D) := by
  refine ⟨?_, rfl, ?_, ?_, by decide⟩
  · simp only [Point2D.add, Point2D.new, Point2D.mk.injEq]
    constructor
    · rw [Int.add_comm]
    · rw [Int.add_comm]
  · intro h
    exact wrap32_eq_of_valid _ h
  · intro h
    exact wrap32_eq_of_valid _ h

/-- **C9 witness.** A concrete non-overflowing difference is exact. -/
theorem c9_point_ops_witness :
    (Point2D.sub ⟨100, 200⟩ ⟨10, -20⟩).x = 100 - 10 :=
  (c9_point_ops ⟨100, 200⟩ ⟨10, -20⟩).2.2.1 (by decide)

/-- The polygons reachable through the public API: the three
construction paths (`new`, `with_capacity`, `from_iter`) and closure
under every mutating operation of `src/polygon.rs` and
`src/operations/translate.rs`. -/
inductive Reachable : Polygon → Prop where
  | new : Reachable Polygon.new
  | with_capacity (n : Nat) : Reachable (Polygon.with_capacity n)
  | from_iter (l : List Point2D) : Reachable (Polygon.from_iter l)
  | push (p : Polygon) (v : Point2D) : Reachable p → Reachable (p.push v)
  | pop (p : Polygon) : Reachable p → Reachable (p.pop).2
  | insert (p : Polygon) (i : Nat) (v : Point2D) : Reachable p → Reachable (p.insert i v)
  | remove (p : Polygon) (i : Nat) : Reachable p → Reachable (p.remove i)
  | clear (p : Polygon) : Reachable p → Reachable p.clear
  | reserve (p : Polygon) (n : Nat) : Reachable p → Reachable (p.reserve n)
  | setAt (p : Polygon) (i : Nat) (v : Point2D) : Reachable p → Reachable (p.setAt i v)
  | mapVertices (p : Polygon) (f : Point2D → Point2D) :
      Reachable p → Reachable (p.mapVertices f)
  | translate_st (p : Polygon) (dx dy : Int) :
      Reachable p → Reachable (operations.translate_polygon_st p dx dy)
  | translate_mt (p : Polygon) (dx dy : Int) (t : Nat) :
      Reachable p → Reachable (operations.translate_polygon_mt p dx dy t)

/-- **C10.** Every reachable polygon carries `sync_status = HOST`: all
three construction paths set the tag to `HOST` and no operation ever
changes it, so the host copy is always authoritative and the
`host_vertices` accessors are pass-throughs that never need a
device-to-host copy. -/
theorem c10_sync_always_host (p : Polygon) (h : Reachable p) :
    p.sync_status = SyncStatus.HOST ∧ p.host_vertices = p.vertices := by
  refine ⟨?_, rfl⟩
  induction h with
  | new => rfl
  | with_capacity n => rfl
  | from_iter l => rfl
  | push p v _ ih => exact ih
  | pop p _ ih => exact ih
  | insert p i v _ ih => exact ih
  | remove p i _ ih => exact ih
  | clear p _ ih => exact ih
  | reserve p n _ ih => exact ih
  | setAt p i v _ ih => exact ih
  | mapVertices p f _ ih => exact ih
  | translate_st p dx dy _ ih => exact ih
  | translate_mt p dx dy t _ ih => exact ih

/-- **C10 witness.** A polygon built by `from_iter`, pushed, translated
in parallel and popped still carries the `HOST` tag. -/
theorem c10_sync_always_host_witness :
    ((operations.translate_polygon_mt
      ((Polygon.from_iter [⟨0, 0⟩, ⟨1000, 0⟩]).push ⟨7, 7⟩)
      100 (-150) 4).pop).2.sync_status = SyncStatus.HOST :=
  (c10_sync_always_host _
    (Reachable.pop _
      (Reachable.translate_mt _ 100 (-150) 4
        (Reachable.push _ ⟨7, 7⟩
          (Reachable.from_iter [⟨0, 0⟩, ⟨1000, 0⟩]))))).1

end ApexRS
